import Mathlib

/-!
Verification development for the Helios trading analytics core.

The embedding models the metrics deriver (`calculate_trade_metrics` in
`app/utils/helpers.py`), the pattern analyzer (`app/services/pattern_analyzer.py`)
and the behavior analyzer (`app/services/behavior_analyzer.py`).

Numeric trade fields are modelled as exact rationals.  Results of float
operations that can produce IEEE sentinels (division by zero, statistics of
empty or single-row series) are modelled by the `PV` type below, which carries
a finite value, an infinity, or the undefined (`nan`) marker; the arithmetic on
`PV` mirrors the IEEE conventions used by numpy/pandas for the operations the
source performs.  Dates are modelled as integer timestamps (minutes), standing
for the values produced by `pd.to_datetime`.
-/

/-- Extended value modelling an IEEE-style float result: a finite value,
positive or negative infinity, or the undefined (`NaN`) marker produced by
operations such as `0/0` or statistics over empty series. -/
inductive PV (α : Type) where
  | num (x : α)
  | pinf
  | ninf
  | nan
deriving DecidableEq

namespace PV

variable {α : Type}

/-- Division with IEEE-style semantics: `a/0` is `±inf` for `a ≠ 0` and `nan`
for `a = 0`; any operation involving `nan` is `nan`.  This mirrors numpy float
division as used by the source. -/
def div [LinearOrder α] [Div α] [Zero α] : PV α → PV α → PV α
  | nan, _ => nan
  | _, nan => nan
  | num a, num b =>
      if b = 0 then (if a = 0 then nan else if 0 < a then pinf else ninf)
      else num (a / b)
  | num _, pinf => num 0
  | num _, ninf => num 0
  | pinf, num b => if 0 ≤ b then pinf else ninf
  | ninf, num b => if 0 ≤ b then ninf else pinf
  | pinf, pinf => nan
  | pinf, ninf => nan
  | ninf, pinf => nan
  | ninf, ninf => nan

/-- Multiplication with IEEE-style semantics (`inf * 0 = nan`, `nan`
propagates), as used for the annualization factor in the Sharpe ratio. -/
def mul [LinearOrder α] [Mul α] [Zero α] : PV α → PV α → PV α
  | nan, _ => nan
  | _, nan => nan
  | num a, num b => num (a * b)
  | num a, pinf => if a = 0 then nan else if 0 < a then pinf else ninf
  | num a, ninf => if a = 0 then nan else if 0 < a then ninf else pinf
  | pinf, num b => if b = 0 then nan else if 0 < b then pinf else ninf
  | ninf, num b => if b = 0 then nan else if 0 < b then ninf else pinf
  | pinf, pinf => pinf
  | pinf, ninf => ninf
  | ninf, pinf => ninf
  | ninf, ninf => pinf

/-- Strict comparison with IEEE-style semantics: `nan` is incomparable
(every comparison involving it is false), `-inf < finite < +inf`. -/
def lt [LT α] : PV α → PV α → Prop
  | num a, num b => a < b
  | ninf, num _ => True
  | num _, pinf => True
  | ninf, pinf => True
  | _, _ => False

instance [LT α] [DecidableRel fun a b : α => a < b] :
    ∀ x y : PV α, Decidable (lt x y)
  | num a, num b => inferInstanceAs (Decidable (a < b))
  | num _, pinf => inferInstanceAs (Decidable True)
  | ninf, num _ => inferInstanceAs (Decidable True)
  | ninf, pinf => inferInstanceAs (Decidable True)
  | num _, ninf => inferInstanceAs (Decidable False)
  | num _, nan => inferInstanceAs (Decidable False)
  | pinf, _ => inferInstanceAs (Decidable False)
  | ninf, ninf => inferInstanceAs (Decidable False)
  | ninf, nan => inferInstanceAs (Decidable False)
  | nan, _ => inferInstanceAs (Decidable False)

/-- Non-strict comparison with IEEE-style semantics: any comparison involving
`nan` is false, `-inf <= finite <= +inf`, each infinity equals itself. -/
def le [LE α] : PV α → PV α → Prop
  | num a, num b => a ≤ b
  | num _, pinf => True
  | ninf, num _ => True
  | ninf, ninf => True
  | ninf, pinf => True
  | pinf, pinf => True
  | _, _ => False

instance [LE α] [DecidableRel fun a b : α => a ≤ b] :
    ∀ x y : PV α, Decidable (le x y)
  | num a, num b => inferInstanceAs (Decidable (a ≤ b))
  | num _, pinf => inferInstanceAs (Decidable True)
  | num _, ninf => inferInstanceAs (Decidable False)
  | num _, nan => inferInstanceAs (Decidable False)
  | ninf, num _ => inferInstanceAs (Decidable True)
  | ninf, ninf => inferInstanceAs (Decidable True)
  | ninf, pinf => inferInstanceAs (Decidable True)
  | ninf, nan => inferInstanceAs (Decidable False)
  | pinf, num _ => inferInstanceAs (Decidable False)
  | pinf, pinf => inferInstanceAs (Decidable True)
  | pinf, ninf => inferInstanceAs (Decidable False)
  | pinf, nan => inferInstanceAs (Decidable False)
  | nan, _ => inferInstanceAs (Decidable False)

/-- Finite projection: `some x` for a finite value, `none` for the sentinels. -/
def toNum : PV α → Option α
  | num x => some x
  | _ => none

end PV

/-- One raw trade record, as received by the analytics core after upstream
schema validation (fields of `app/models/trade.py`).  The `date` field stands
for the timestamp produced by `pd.to_datetime`, in minutes. -/
structure Trade where
  pair : String
  direction : String
  status : String
  strategy : Option String
  date : Int
  accountBalance : ℚ
  entryPrice : ℚ
  size : ℚ
  stopLoss : ℚ
  target : ℚ
  exitPrice : ℚ
  netPNL : ℚ
  accountChange : ℚ
deriving DecidableEq

/-- One row of the derived table: a trade record extended with the computed
`risk`, `reward` and `rr_ratio` columns. -/
structure Row extends Trade where
  risk : ℚ
  reward : ℚ
  rr_ratio : PV ℚ
deriving DecidableEq

/-- Absolute value on the rationals, written so that it evaluates by kernel
reduction (Python's `abs`). -/
def ratAbs (x : ℚ) : ℚ := if x < 0 then -x else x

theorem ratAbs_eq_abs (x : ℚ) : ratAbs x = |x| := by
  by_cases h : x < 0
  · simp [ratAbs, h, abs_of_neg h]
  · simp [ratAbs, h, abs_of_nonneg (le_of_not_lt h)]

theorem ratAbs_nonneg (x : ℚ) : 0 ≤ ratAbs x := by
  rw [ratAbs_eq_abs]; exact abs_nonneg x

/-- Per-row derivation step of `calculate_trade_metrics`:
`risk = |entryPrice - stopLoss|`, `reward = |target - entryPrice|`,
`rr_ratio = reward / risk` with float division semantics. -/
def deriveRow (t : Trade) : Row :=
  { t with
    risk := ratAbs (t.entryPrice - t.stopLoss)
    reward := ratAbs (t.target - t.entryPrice)
    rr_ratio := PV.div (PV.num (ratAbs (t.target - t.entryPrice)))
      (PV.num (ratAbs (t.entryPrice - t.stopLoss))) }

/-- Date ordering on derived rows, the sort key of `df.sort_values('date')`. -/
def dateLe (a b : Row) : Prop := a.date ≤ b.date

instance : DecidableRel dateLe := fun a b => Int.decLe a.date b.date

instance : IsTotal Row dateLe := ⟨fun a b => Int.le_total a.date b.date⟩

instance : IsTrans Row dateLe := ⟨fun _ _ _ hab hbc => le_trans hab hbc⟩

/-- Embedding of `calculate_trade_metrics` (`app/utils/helpers.py`): computes
the derived columns for every record and returns the table sorted ascending by
the parsed date. -/
def calculate_trade_metrics (trades : List Trade) : List Row :=
  (trades.map deriveRow).insertionSort dateLe

/-- C1: for every valid input sequence of trade records,
`calculate_trade_metrics` returns a table whose row count equals the input
record count and whose rows are sorted non-decreasing by the parsed date. -/
theorem C1_calculate_trade_metrics_preserves_count_and_sorts (trades : List Trade) :
    (calculate_trade_metrics trades).length = trades.length ∧
      (calculate_trade_metrics trades).Pairwise (fun a b => a.date ≤ b.date) := by
  constructor
  · calc (calculate_trade_metrics trades).length
        = (trades.map deriveRow).length :=
          (List.perm_insertionSort dateLe (trades.map deriveRow)).length_eq
      _ = trades.length := List.length_map _ _
  · exact List.sorted_insertionSort dateLe (trades.map deriveRow)

/-- C2: every row of the derived table whose `risk` is zero carries the
explicit infinite/undefined sentinel in `rr_ratio` (positive infinity when the
reward is positive, the undefined marker when it is zero); the derivation is a
total function and raises no error. -/
theorem C2_zero_risk_rr_ratio_is_sentinel (trades : List Trade) (r : Row)
    (hmem : r ∈ calculate_trade_metrics trades) (hrisk : r.risk = 0) :
    r.rr_ratio = PV.pinf ∨ r.rr_ratio = PV.nan := by
  have hmem' : r ∈ trades.map deriveRow :=
    (List.mem_insertionSort dateLe).mp hmem
  obtain ⟨t, -, rfl⟩ := List.mem_map.mp hmem'
  have hr0 : ratAbs (t.entryPrice - t.stopLoss) = 0 := hrisk
  by_cases hw : ratAbs (t.target - t.entryPrice) = 0
  · right
    simp [deriveRow, PV.div, hr0, hw]
  · left
    have hwpos : 0 < ratAbs (t.target - t.entryPrice) :=
      lt_of_le_of_ne (ratAbs_nonneg _) (Ne.symm hw)
    simp [deriveRow, PV.div, hr0, hw, hwpos]

/-- Trade used by concrete witnesses: entry price equals the stop loss, so the
derived risk is zero while the reward is positive. -/
def zeroRiskTrade : Trade :=
  { pair := "EURUSD", direction := "long", status := "loss", strategy := none
    date := 0, accountBalance := 1000, entryPrice := 5, size := 1
    stopLoss := 5, target := 7, exitPrice := 6, netPNL := -10, accountChange := -1 }

unseal Rat.sub Rat.mul Rat.inv Rat.add in
/-- Witness for C2: a concrete derived row with zero risk, whose `rr_ratio` is
the positive-infinity sentinel. -/
theorem C2_zero_risk_rr_ratio_is_sentinel_witness :
    deriveRow zeroRiskTrade ∈ calculate_trade_metrics [zeroRiskTrade] ∧
      (deriveRow zeroRiskTrade).risk = 0 ∧
      ((deriveRow zeroRiskTrade).rr_ratio = PV.pinf ∨
        (deriveRow zeroRiskTrade).rr_ratio = PV.nan) := by
  refine ⟨by decide, by decide, ?_⟩
  exact C2_zero_risk_rr_ratio_is_sentinel [zeroRiskTrade] (deriveRow zeroRiskTrade)
    (by decide) (by decide)

/-! ### Series combinators used by the behavior analyzer -/

/-- Pandas `Series.shift(-1)`: every position receives the value of the next
position; the last position receives the missing-value marker. -/
def shiftNeg1 {α : Type} : List α → List (Option α)
  | [] => []
  | _ :: rest => rest.map some ++ [none]

/-- Mean of a boolean series (`True = 1`); the mean of an empty series is the
undefined marker, as in pandas. -/
def boolSeriesMean (xs : List Bool) : PV ℚ :=
  if xs.isEmpty then PV.nan else PV.num ((xs.countP id : ℚ) / xs.length)

/-- Mean of a series containing missing values, with pandas' default
`skipna=True`: missing entries are dropped; an all-missing or empty series has
the undefined marker as its mean. -/
def optSeriesMean (xs : List (Option ℚ)) : PV ℚ :=
  let vals := xs.filterMap id
  if vals.isEmpty then PV.nan else PV.num (vals.sum / vals.length)

/-! ### `detect_revenge_trading` (`app/services/behavior_analyzer.py`) -/

/-- The `time_to_next_trade` column: `df['date'].shift(-1) - df['date']`, in
minutes; the last row has the missing marker (`NaT`). -/
def time_to_next_trade (df : List Row) : List (Option Int) :=
  (df.zip (shiftNeg1 df)).map (fun p => p.2.map (fun nxt => nxt.date - p.1.date))

/-- The flagged sub-table: rows with `status == 'loss'` whose gap to the next
trade is under 30 minutes (a missing gap compares false, so the last row is
never flagged). -/
def quick_trades_after_loss (df : List Row) : List Row :=
  ((df.zip (time_to_next_trade df)).filter (fun p =>
    p.1.status == "loss" &&
      (match p.2 with
       | some g => decide (g < 30)
       | none => false))).map (fun p => p.1)

/-- Result record of `detect_revenge_trading`. -/
structure RevengeResult where
  quick_trades_after_losses : ℕ
  quick_trades_after_losses_success_rate : PV ℚ
  avg_pnl_after_quick_trade : PV ℚ
deriving DecidableEq

/-- Embedding of `detect_revenge_trading`: the success rate and average PNL
are computed by shifting the columns of the FILTERED sub-table (pandas
`quick_trades_after_loss['status'].shift(-1)` and `...['netPNL'].shift(-1)`),
with `NaN == 'win'` evaluating to false and `mean` skipping missing values. -/
def detect_revenge_trading (df : List Row) : RevengeResult :=
  let quick := quick_trades_after_loss df
  { quick_trades_after_losses := quick.length
    quick_trades_after_losses_success_rate :=
      boolSeriesMean ((shiftNeg1 (quick.map (fun r => r.status))).map (fun o => o == some "win"))
    avg_pnl_after_quick_trade := optSeriesMean (shiftNeg1 (quick.map (fun r => r.netPNL))) }

/-- Specification-side definition, following the claim's words: each flagged
trade paired with the trade immediately following it in the FULL date-sorted
table. -/
def flaggedWithNextTrade (df : List Row) : List (Row × Row) :=
  (df.zip (shiftNeg1 df)).filterMap (fun p =>
    match p.2 with
    | some nxt =>
        if p.1.status == "loss" && decide (nxt.date - p.1.date < 30) then some (p.1, nxt) else none
    | none => none)

/-- Specification-side definition: the win rate of the trades immediately
following the flagged trades in the full table. -/
def spec_next_trade_success_rate (df : List Row) : PV ℚ :=
  let nexts := (flaggedWithNextTrade df).map (fun p => p.2)
  if nexts.isEmpty then PV.nan
  else PV.num ((nexts.countP (fun r => r.status == "win") : ℚ) / nexts.length)

/-- Specification-side definition: the mean `netPNL` of the trades immediately
following the flagged trades in the full table. -/
def spec_next_trade_avg_pnl (df : List Row) : PV ℚ :=
  let nexts := (flaggedWithNextTrade df).map (fun p => p.2)
  if nexts.isEmpty then PV.nan else PV.num ((nexts.map (fun r => r.netPNL)).sum / nexts.length)

/-- Concrete trade constructor used by the examples below. -/
def mkTrade (d : Int) (s : String) (pnl : ℚ) (sz : ℚ) : Trade :=
  { pair := "EURUSD", direction := "long", status := s, strategy := none
    date := d, accountBalance := 1000, entryPrice := 10, size := sz
    stopLoss := 9, target := 12, exitPrice := 11, netPNL := pnl, accountChange := pnl / 10 }

/-- Input refuting C4: five trades in which the trade following a flagged
trade in the full table differs from the next flagged trade. -/
def exC4 : List Trade :=
  [mkTrade 0 "loss" (-10) 1, mkTrade 10 "win" 100 2, mkTrade 20 "loss" 5 3,
   mkTrade 25 "loss" (-50) 4, mkTrade 325 "win" 80 5]

unseal Rat.sub Rat.mul Rat.inv Rat.add in
/-- Counterexample to C4: on `exC4` the code's reported success rate and mean
PNL are statistics of the NEXT FLAGGED trade (shift within the filtered
sub-table, the last flagged trade's missing successor counting as a non-win),
not of the trade immediately following each flagged trade in the full
date-sorted table as the claim states. -/
theorem C4_counterexample :
    (detect_revenge_trading (calculate_trade_metrics exC4)).quick_trades_after_losses_success_rate ≠
        spec_next_trade_success_rate (calculate_trade_metrics exC4) ∧
      (detect_revenge_trading (calculate_trade_metrics exC4)).avg_pnl_after_quick_trade ≠
        spec_next_trade_avg_pnl (calculate_trade_metrics exC4) ∧
      (detect_revenge_trading (calculate_trade_metrics exC4)).quick_trades_after_losses_success_rate =
        PV.num 0 ∧
      spec_next_trade_success_rate (calculate_trade_metrics exC4) = PV.num (1 / 2) ∧
      (detect_revenge_trading (calculate_trade_metrics exC4)).avg_pnl_after_quick_trade =
        PV.num 5 ∧
      spec_next_trade_avg_pnl (calculate_trade_metrics exC4) = PV.num 25 := by
  decide

/-- Helper: a list map over rows after sorting is a permutation of the map
over the unsorted derived rows. -/
theorem mem_calculate_trade_metrics {trades : List Trade} {r : Row} :
    r ∈ calculate_trade_metrics trades ↔ ∃ t ∈ trades, deriveRow t = r := by
  unfold calculate_trade_metrics
  rw [List.mem_insertionSort, List.mem_map]

/-- C8: for three trades at T0 (loss), T0+10 minutes (any status) and a third,
last trade at least 30 minutes after the second (any status), exactly one
trade — the one at T0 — is counted in `quick_trades_after_losses`; the last
trade, having no next trade, is excluded from the gap computation without
error. -/
theorem C8_last_trade_excluded (s2 s3 : String) (pnl2 pnl3 sz2 sz3 : ℚ) (d : Int)
    (hd : 30 ≤ d) :
    (detect_revenge_trading (calculate_trade_metrics
        [mkTrade 0 "loss" (-10) 1, mkTrade 10 s2 pnl2 sz2,
         mkTrade (10 + d) s3 pnl3 sz3])).quick_trades_after_losses = 1 := by
  have hsorted : calculate_trade_metrics
      [mkTrade 0 "loss" (-10) 1, mkTrade 10 s2 pnl2 sz2, mkTrade (10 + d) s3 pnl3 sz3] =
      [deriveRow (mkTrade 0 "loss" (-10) 1), deriveRow (mkTrade 10 s2 pnl2 sz2),
       deriveRow (mkTrade (10 + d) s3 pnl3 sz3)] := by
    have h1 : ∀ b ∈ [deriveRow (mkTrade 10 s2 pnl2 sz2),
        deriveRow (mkTrade (10 + d) s3 pnl3 sz3)],
        dateLe (deriveRow (mkTrade 0 "loss" (-10) 1)) b := by
      intro b hb
      rcases List.mem_cons.mp hb with rfl | hb
      · show (0 : Int) ≤ 10; omega
      rcases List.mem_cons.mp hb with rfl | hb
      · show (0 : Int) ≤ 10 + d; omega
      · cases hb
    have h2 : ∀ b ∈ [deriveRow (mkTrade (10 + d) s3 pnl3 sz3)],
        dateLe (deriveRow (mkTrade 10 s2 pnl2 sz2)) b := by
      intro b hb
      rcases List.mem_cons.mp hb with rfl | hb
      · show (10 : Int) ≤ 10 + d; omega
      · cases hb
    have h3 : ∀ b ∈ ([] : List Row),
        dateLe (deriveRow (mkTrade (10 + d) s3 pnl3 sz3)) b := by
      intro b hb
      cases hb
    unfold calculate_trade_metrics
    rw [List.map_cons, List.map_cons, List.map_cons, List.map_nil]
    rw [List.insertionSort_cons dateLe h1, List.insertionSort_cons dateLe h2,
      List.insertionSort_cons dateLe h3]
    rfl
  rw [hsorted]
  have hgate : decide (d < 30) = false := by
    simp only [decide_eq_false_iff_not]
    omega
  simp only [detect_revenge_trading, quick_trades_after_loss, time_to_next_trade, shiftNeg1,
    List.map_cons, List.map_nil, List.zip_cons_cons, List.zip_nil_right, List.filter,
    List.length_map]
  simp [deriveRow, mkTrade, hgate]

/-- Witness for C8: the concrete instance with the second trade a win, the
third trade two hours after the first. -/
theorem C8_last_trade_excluded_witness :
    (30 : Int) ≤ 110 ∧
      (detect_revenge_trading (calculate_trade_metrics
          [mkTrade 0 "loss" (-10) 1, mkTrade 10 "win" 100 2,
           mkTrade (10 + 110) "win" 80 3])).quick_trades_after_losses = 1 :=
  ⟨by omega, C8_last_trade_excluded "win" "win" 100 80 2 3 110 (by omega)⟩

theorem shiftNeg1_filterMap_id {α : Type} (l : List α) :
    (shiftNeg1 l).filterMap id = l.tail := by
  cases l with
  | nil => rfl
  | cons x rest =>
    show ((rest.map some) ++ [none]).filterMap id = rest
    rw [List.filterMap_append, List.filterMap_map]
    simp

theorem shiftNeg1_length {α : Type} (l : List α) : (shiftNeg1 l).length = l.length := by
  cases l with
  | nil => rfl
  | cons x rest =>
    show ((rest.map some) ++ [none]).length = rest.length + 1
    simp

theorem countP_win_aux (l : List Row) :
    (((l.map (fun r : Row => r.status)).map some ++ [none]).map (fun o => o == some "win")).countP id =
      l.countP (fun r => r.status == "win") := by
  induction l with
  | nil => rfl
  | cons y t ih =>
    simp only [List.map_cons, List.cons_append, List.countP_cons, ih]
    rfl

/-- Closed form of the shifted-status success rate over the flagged rows. -/
theorem boolSeriesMean_shift_status (quick : List Row) :
    boolSeriesMean ((shiftNeg1 (quick.map (fun r => r.status))).map (fun o => o == some "win")) =
      (if quick = [] then PV.nan
       else PV.num ((quick.tail.countP (fun r => r.status == "win") : ℚ) /
         ((quick.length : ℕ) : ℚ))) := by
  cases quick with
  | nil => rfl
  | cons x rest =>
    show boolSeriesMean ((((rest.map (fun r : Row => r.status)).map some ++ [none]).map
        (fun o => o == some "win"))) = _
    unfold boolSeriesMean
    rw [countP_win_aux]
    simp [List.isEmpty_iff]

/-- Closed form of the shifted-PNL mean over the flagged rows. -/
theorem optSeriesMean_shift_pnl (quick : List Row) :
    optSeriesMean (shiftNeg1 (quick.map (fun r => r.netPNL))) =
      (if quick.length ≤ 1 then PV.nan
       else PV.num ((quick.tail.map (fun r => r.netPNL)).sum /
         (((quick.length - 1 : ℕ) : ℕ) : ℚ))) := by
  cases quick with
  | nil => rfl
  | cons x rest =>
    have hvals : (shiftNeg1 ((x :: rest).map (fun r => r.netPNL))).filterMap id =
        rest.map (fun r => r.netPNL) := by
      rw [shiftNeg1_filterMap_id, List.map_cons, List.tail_cons]
    unfold optSeriesMean
    rw [hvals]
    cases rest with
    | nil => simp
    | cons y t => simp [List.isEmpty_iff]

/-- C4 (amended): `detect_revenge_trading` reports the count of flagged
trades, but the reported "success rate" and "average PNL" are statistics of
each flagged trade's successor WITHIN the flagged sub-table (the next flagged
trade), the last flagged trade's missing successor counting as a non-win in
the rate and being dropped from the PNL mean — not statistics of the trade
immediately following each flagged trade in the full date-sorted table. -/
theorem C4_amended_revenge_stats_are_within_flagged (trades : List Trade) :
    (detect_revenge_trading (calculate_trade_metrics trades)).quick_trades_after_losses =
        (quick_trades_after_loss (calculate_trade_metrics trades)).length ∧
      (detect_revenge_trading
            (calculate_trade_metrics trades)).quick_trades_after_losses_success_rate =
        (if quick_trades_after_loss (calculate_trade_metrics trades) = [] then PV.nan
         else PV.num
            (((quick_trades_after_loss (calculate_trade_metrics trades)).tail.countP
                (fun r => r.status == "win") : ℚ) /
              ((quick_trades_after_loss (calculate_trade_metrics trades)).length : ℚ))) ∧
      (detect_revenge_trading (calculate_trade_metrics trades)).avg_pnl_after_quick_trade =
        (if (quick_trades_after_loss (calculate_trade_metrics trades)).length ≤ 1 then PV.nan
         else PV.num
            (((quick_trades_after_loss (calculate_trade_metrics trades)).tail.map
                (fun r => r.netPNL)).sum /
              (((quick_trades_after_loss (calculate_trade_metrics trades)).length - 1 : ℕ) : ℚ))) := by
  refine ⟨rfl, ?_, ?_⟩
  · show boolSeriesMean _ = _
    rw [boolSeriesMean_shift_status]
  · show optSeriesMean _ = _
    rw [optSeriesMean_shift_pnl]

/-! ### `calculate_loss_recovery_rate` (`app/services/behavior_analyzer.py`) -/

def cumsumAux (acc : Int) : List Int → List Int
  | [] => []
  | x :: xs => (acc + x) :: cumsumAux (acc + x) xs

/-- Pandas `Series.cumsum()` over an integer series. -/
def cumsum (l : List Int) : List Int := cumsumAux 0 l

/-- Embedding of `calculate_loss_recovery_rate`: the non-win indicator is
grouped by the running count of wins and summed per group; the mean of the
positive group sums is returned (the mean of an empty selection being the
undefined marker). -/
def calculate_loss_recovery_rate (df : List Row) : PV ℚ :=
  let winCum := cumsum (df.map (fun r => if r.status == "win" then 1 else 0))
  let nonWin : List Int := df.map (fun r => if r.status == "win" then 0 else 1)
  let loss_streaks : List Int := winCum.dedup.map (fun k =>
    ((winCum.zip nonWin).filter (fun p => p.1 == k)).foldl (fun a p => a + p.2) 0)
  let pos := loss_streaks.filter (fun s => decide (0 < s))
  if pos.isEmpty then PV.nan else PV.num (((pos.sum : Int) : ℚ) / ((pos.length : ℕ) : ℚ))

/-- Input refuting C5: two trades, both losses. -/
def exC5 : List Trade := [mkTrade 0 "loss" (-5) 1, mkTrade 10 "loss" (-5) 2]

unseal Rat.sub Rat.mul Rat.inv Rat.add in
/-- Counterexample to C5: on a table with no winning trade,
`calculate_loss_recovery_rate` returns the finite number of trades (the single
unterminated streak's length), not an explicit undefined-value marker. -/
theorem C5_counterexample :
    calculate_loss_recovery_rate (calculate_trade_metrics exC5) = PV.num 2 ∧
      (PV.num (2 : ℚ) ≠ (PV.nan : PV ℚ)) := by
  decide

theorem cumsumAux_replicate_zero (n : ℕ) (acc : Int) :
    cumsumAux acc (List.replicate n 0) = List.replicate n acc := by
  induction n generalizing acc with
  | zero => rfl
  | succ m ih =>
    show (acc + 0) :: cumsumAux (acc + 0) (List.replicate m 0) = _
    rw [Int.add_zero, ih]
    rfl

theorem dedup_replicate_cons {α : Type} [DecidableEq α] (n : ℕ) (a : α) :
    (List.replicate (n + 1) a).dedup = [a] := by
  induction n with
  | zero => rfl
  | succ m ih =>
    have h : List.replicate (m + 1 + 1) a = a :: List.replicate (m + 1) a := rfl
    rw [h, List.dedup_cons_of_mem (List.mem_replicate.mpr ⟨Nat.succ_ne_zero m, rfl⟩), ih]

theorem zip_replicate_self {α β : Type} (n : ℕ) (a : α) (l : List β) (h : l.length = n) :
    (List.replicate n a).zip l = l.map (fun b => (a, b)) := by
  induction l generalizing n with
  | nil => subst h; rfl
  | cons x xs ih =>
    subst h
    show ((List.replicate (xs.length + 1) a).zip (x :: xs)) = _
    rw [List.replicate_succ, List.zip_cons_cons, ih xs.length rfl]
    rfl

theorem foldl_add_snd_ones (l : List Int) (c : Int) (h : ∀ x ∈ l, x = 1) :
    (l.map (fun b => ((0 : Int), b))).foldl (fun a p => a + p.2) c = c + (l.length : Int) := by
  induction l generalizing c with
  | nil => simp
  | cons x xs ih =>
    have hx : x = 1 := h x (List.mem_cons_self x xs)
    show (xs.map (fun b => ((0 : Int), b))).foldl (fun a p => a + p.2) (c + x) = _
    rw [ih (c + x) (fun y hy => h y (List.mem_cons_of_mem x hy)), hx, List.length_cons]
    omega

/-- C5 (amended): on a non-empty table containing no winning trade,
`calculate_loss_recovery_rate` returns the finite total number of trades (the
whole table forms one unterminated streak whose length is returned), rather
than an undefined-value marker. -/
theorem C5_amended_no_wins_returns_trade_count (trades : List Trade)
    (h1 : trades ≠ []) (h2 : ∀ t ∈ trades, t.status ≠ "win") :
    calculate_loss_recovery_rate (calculate_trade_metrics trades) =
      PV.num ((trades.length : ℕ) : ℚ) := by
  have hstat : ∀ r ∈ calculate_trade_metrics trades, r.status ≠ "win" := by
    intro r hr
    obtain ⟨t, ht, rfl⟩ := mem_calculate_trade_metrics.mp hr
    exact h2 t ht
  have hlen : (calculate_trade_metrics trades).length = trades.length :=
    (C1_calculate_trade_metrics_preserves_count_and_sorts trades).1
  have hwin : (calculate_trade_metrics trades).map
      (fun r => if r.status == "win" then (1 : Int) else 0) =
      List.replicate trades.length 0 := by
    apply List.eq_replicate_iff.mpr
    refine ⟨by rw [List.length_map, hlen], ?_⟩
    intro b hb
    obtain ⟨r, hr, rfl⟩ := List.mem_map.mp hb
    simp [hstat r hr]
  have hnon : (calculate_trade_metrics trades).map
      (fun r => if r.status == "win" then (0 : Int) else 1) =
      List.replicate trades.length 1 := by
    apply List.eq_replicate_iff.mpr
    refine ⟨by rw [List.length_map, hlen], ?_⟩
    intro b hb
    obtain ⟨r, hr, rfl⟩ := List.mem_map.mp hb
    simp [hstat r hr]
  obtain ⟨m, hm⟩ : ∃ m, trades.length = m + 1 := by
    cases trades with
    | nil => exact absurd rfl h1
    | cons t ts => exact ⟨ts.length, rfl⟩
  have hzip : (List.replicate (m + 1) (0 : Int)).zip (List.replicate (m + 1) (1 : Int)) =
      (List.replicate (m + 1) (1 : Int)).map (fun b => ((0 : Int), b)) :=
    zip_replicate_self (m + 1) 0 _ (List.length_replicate _ _)
  have hfilter : ((List.replicate (m + 1) (1 : Int)).map (fun b => ((0 : Int), b))).filter
      (fun p => p.1 == (0 : Int)) =
      (List.replicate (m + 1) (1 : Int)).map (fun b => ((0 : Int), b)) := by
    apply List.filter_eq_self.mpr
    intro p hp
    obtain ⟨b, hb, rfl⟩ := List.mem_map.mp hp
    rfl
  have hsum : ((List.replicate (m + 1) (1 : Int)).map (fun b => ((0 : Int), b))).foldl
      (fun a p => a + p.2) 0 = ((m + 1 : ℕ) : Int) := by
    rw [foldl_add_snd_ones _ 0 (fun x hx => (List.mem_replicate.mp hx).2),
      List.length_replicate]
    omega
  have hpos : decide ((0 : Int) < ((m + 1 : ℕ) : Int)) = true :=
    decide_eq_true (by positivity)
  rw [hm] at hwin hnon ⊢
  simp only [calculate_loss_recovery_rate]
  rw [hwin, hnon]
  simp only [cumsum]
  rw [cumsumAux_replicate_zero, dedup_replicate_cons, hzip]
  simp only [List.map_cons, List.map_nil]
  rw [hfilter, hsum]
  simp only [List.filter_cons, List.filter_nil, hpos, if_true]
  rw [if_neg (by simp [List.isEmpty_iff])]
  have hdiv : ((([((m + 1 : ℕ) : Int)] : List Int).sum : ℚ) /
      ((([((m + 1 : ℕ) : Int)] : List Int).length : ℕ) : ℚ)) = ((m + 1 : ℕ) : ℚ) := by
    simp
  rw [hdiv]

/-- Witness for C5 (amended): the two-loss input satisfies the hypotheses and
yields the finite value 2. -/
theorem C5_amended_no_wins_returns_trade_count_witness :
    exC5 ≠ [] ∧ (∀ t ∈ exC5, t.status ≠ "win") ∧
      calculate_loss_recovery_rate (calculate_trade_metrics exC5) =
        PV.num ((exC5.length : ℕ) : ℚ) :=
  ⟨by decide, by decide,
    C5_amended_no_wins_returns_trade_count exC5 (by decide) (by decide)⟩

/-! ### Quantile bucketing (`pd.qcut`) as used by `app/services/pattern_analyzer.py` -/

/-- Lexicographic comparison of character lists by code point, the string
order used by Python's `sorted`. -/
def charListLe : List Char → List Char → Bool
  | [], _ => true
  | _ :: _, [] => false
  | c :: cs, d :: ds =>
      if c.toNat < d.toNat then true
      else if d.toNat < c.toNat then false
      else charListLe cs ds

/-- String comparison by code point. -/
def strLeB (a b : String) : Bool := charListLe a.data b.data

/-- Linear-interpolation quantile of a sorted list at fraction `p`
(numpy's default interpolation, used by pandas to compute qcut bin edges). -/
def quantileAt (s : List ℚ) (p : ℚ) : ℚ :=
  let n := s.length
  let idx : ℚ := p * ((n : ℚ) - 1)
  let i : ℕ := (⌊idx⌋).toNat
  let lo := s.getD i 0
  let hi := s.getD (min (i + 1) (n - 1)) 0
  lo + (idx - (i : ℚ)) * (hi - lo)

/-- The `q+1` candidate bin edges of `pd.qcut(vals, q)`: quantiles of the
values at `0, 1/q, ..., 1`. -/
def qcutEdges (vals : List ℚ) (q : ℕ) : List ℚ :=
  let s := vals.insertionSort (fun a b : ℚ => a ≤ b)
  (List.range (q + 1)).map (fun k : ℕ => quantileAt s ((k : ℚ) / (q : ℚ)))

/-- numpy's `unique`: sort and drop duplicates. -/
def npUnique (l : List ℚ) : List ℚ := (l.insertionSort (fun a b : ℚ => a ≤ b)).dedup

/-- `searchsorted(..., side='left')`: the number of edges strictly below `v`. -/
def searchsortedLeft (bins : List ℚ) (v : ℚ) : ℕ := bins.countP (fun e => decide (e < v))

/-- `searchsorted` index adjusted so that the lowest edge falls into the
first bin (`ids[x == bins[0]] = 1` in pandas `_bins_to_cuts` with
`include_lowest=True`). -/
def binIndex (bins : List ℚ) (v : ℚ) : ℕ :=
  if bins.head? = some v then 1 else searchsortedLeft bins v

/-- Bin index of one value for right-closed bins with the lowest value
included in the first bin; `none` is the missing marker for out-of-range
values. -/
def binOf (bins : List ℚ) (v : ℚ) : Option ℕ :=
  if binIndex bins v = 0 ∨ bins.length ≤ binIndex bins v then none
  else some (binIndex bins v - 1)

/-- Embedding of `pd.qcut(vals, q, labels, duplicates)`: computes the edges,
raises on duplicate edges unless `duplicates='drop'`, checks that the label
count matches the bin count, and assigns each value its bin index.  Returns
the bin edges together with the per-value bin assignment. -/
def qcutAssign (bins : List ℚ) (vals : List ℚ) :
    Option (List String) → Except String (List ℚ × List (Option ℕ))
  | some ls =>
      if ls.length ≠ bins.length - 1 then
        .error "Bin labels must be one fewer than the number of bin edges"
      else .ok (bins, vals.map (binOf bins))
  | none => .ok (bins, vals.map (binOf bins))

def qcut (vals : List ℚ) (q : ℕ) (labels : Option (List String)) (dropDuplicates : Bool) :
    Except String (List ℚ × List (Option ℕ)) :=
  if (npUnique (qcutEdges vals q)).length < (qcutEdges vals q).length ∧ dropDuplicates = false
  then
    .error "Bin edges must be unique"
  else
    qcutAssign (if dropDuplicates then npUnique (qcutEdges vals q) else qcutEdges vals q)
      vals labels

/-! ### Rounding and formatting helpers -/

/-- Round to the nearest integer, ties to even (numpy/Python rounding). -/
def roundHalfEven (x : ℚ) : Int :=
  if x - (⌊x⌋ : ℚ) < 1 / 2 then ⌊x⌋
  else if (1 : ℚ) / 2 < x - (⌊x⌋ : ℚ) then ⌊x⌋ + 1
  else if ⌊x⌋ % 2 = 0 then ⌊x⌋ else ⌊x⌋ + 1

/-- `round(x, 4)` as applied by the analyzers to every aggregated metric. -/
def round4 (x : ℚ) : ℚ := ((roundHalfEven (x * 10000) : Int) : ℚ) / 10000

def pad2 (n : ℕ) : String := if n < 10 then "0" ++ toString n else toString n

/-- Python's `"{:.2f}"` format: two decimals, ties to even, a sign for
negative values (including negative values rounding to zero). -/
def fmt2 (x : ℚ) : String :=
  let c := roundHalfEven (x * 100)
  let sign := if c < 0 ∨ (c = 0 ∧ x < 0) then "-" else ""
  sign ++ toString (c.natAbs / 100) ++ "." ++ pad2 (c.natAbs % 100)

/-- Python's `"{:.2%}"` format. -/
def fmtPct2 (x : ℚ) : String := fmt2 (x * 100) ++ "%"

/-! ### Pattern analyzer (`app/services/pattern_analyzer.py`) -/

/-- Win rate of a group: fraction of rows with `status == 'win'`. -/
def winRateOf (rows : List Row) : ℚ :=
  ((rows.countP (fun r => r.status == "win") : ℕ) : ℚ) / ((rows.length : ℕ) : ℚ)

/-- Mean of a numeric column over a group. -/
def meanOf (f : Row → ℚ) (rows : List Row) : ℚ :=
  (rows.map f).sum / ((rows.length : ℕ) : ℚ)

/-- The nominal quartile labels of `analyze_position_size_impact`. -/
def sizeLabels : List String := ["Small", "Medium", "Large", "Very Large"]

/-- Rows assigned to bucket `j` by a qcut assignment. -/
def rowsInBin (df : List Row) (idxs : List (Option ℕ)) (j : ℕ) : List Row :=
  ((df.zip idxs).filter (fun p => p.2 == some j)).map (fun p => p.1)

/-- Per-bucket statistics reported by `analyze_position_size_impact`.  The
source also reports the standard deviations of `netPNL` and `accountChange`;
those require a square root, are produced by an aggregation that cannot fail
(a single-row group yields `NaN`), and are referenced by no claim, so they are
omitted from the record. -/
structure SizeStats where
  win_rate : ℚ
  netPNL_mean : ℚ
  accountChange_mean : ℚ
deriving DecidableEq

/-- Embedding of `analyze_position_size_impact`: quartile buckets of `size`
(with the reduced bucket count and truncated label list for fewer than 4
rows), then per-bucket win rate and means over the observed (non-empty)
buckets, every metric rounded to 4 decimals. -/
def analyze_position_size_impact (df : List Row) : Except String (List (String × SizeStats)) :=
  let n := df.length
  let labels := if n < 4 then sizeLabels.take n else sizeLabels
  let step :=
    if n < 4 then qcut (df.map (fun r => r.size)) (min n 4) (some (sizeLabels.take n)) true
    else qcut (df.map (fun r => r.size)) 4 (some sizeLabels) false
  match step with
  | .error e => .error e
  | .ok (bins, idxs) =>
      .ok ((List.range (bins.length - 1)).filterMap (fun j =>
        let rows := rowsInBin df idxs j
        if rows.isEmpty then none
        else some (labels.getD j "",
          { win_rate := round4 (winRateOf rows)
            netPNL_mean := round4 (meanOf (fun r => r.netPNL) rows)
            accountChange_mean := round4 (meanOf (fun r => r.accountChange) rows) })))

/-- Per-group statistics reported by `analyze_pair_direction_bias`. -/
structure PairStats where
  win_rate : ℚ
  avg_netPNL : ℚ
  avg_accountChange : ℚ
deriving DecidableEq

/-- Embedding of `analyze_pair_direction_bias`: `groupby(['pair',
'direction'])` visits the observed groups in sorted key order; the result is
the nested mapping pair → direction → metrics, rounded to 4 decimals. -/
def analyze_pair_direction_bias (df : List Row) :
    List (String × List (String × PairStats)) :=
  let pairs := ((df.map (fun r => r.pair)).dedup).insertionSort
    (fun a b : String => strLeB a b = true)
  pairs.map (fun p =>
    let dirs := (((df.filter (fun r => r.pair == p)).map (fun r => r.direction)).dedup).insertionSort
      (fun a b : String => strLeB a b = true)
    (p, dirs.map (fun d =>
      let rows := df.filter (fun r => r.pair == p && r.direction == d)
      (d, { win_rate := round4 (winRateOf rows)
            avg_netPNL := round4 (meanOf (fun r => r.netPNL) rows)
            avg_accountChange := round4 (meanOf (fun r => r.accountChange) rows) }))))

/-- The pair/direction combinations with a win rate of exactly 1.0, iterated
as in `get_key_trading_insights`: pairs in result order, then the fixed
direction order `['long', 'short']`. -/
def best_pairs (analysis : List (String × List (String × PairStats))) : List String :=
  analysis.flatMap (fun pd =>
    ["long", "short"].filterMap (fun d =>
      match pd.2.find? (fun q => q.1 == d) with
      | some q => if q.2.win_rate = 1 then some (pd.1 ++ " " ++ d) else none
      | none => none))

/-- Finite projection of a derived column; the model covers the finite
region (the source feeds possibly infinite `rr_ratio` values straight into
`pd.qcut`, whose behavior on non-finite input this embedding does not
model, and every theorem below restricts to finite `rr_ratio`). -/
def finiteVals (vs : List (PV ℚ)) : Except String (List ℚ) :=
  match vs.mapM PV.toNum with
  | some l => .ok l
  | none => .error "nonfinite rr_ratio not modelled"

/-- Per-bucket statistics reported by `analyze_risk_reward_patterns`.  Both
metrics are floats that can be the undefined (`NaN`) marker: the groupby over
the quantile categorical is performed without `observed=True`, so an interval
category containing no trade still yields a row, whose aggregates are `NaN`. -/
structure RRStats where
  win_rate : PV ℚ
  avg_netPNL : PV ℚ
deriving DecidableEq

/-- Python-dict insertion: replace in place when the key exists, else append. -/
def upsert {β : Type} (m : List (String × β)) (k : String) (v : β) : List (String × β) :=
  if m.any (fun p => p.1 == k) then m.map (fun p => if p.1 == k then (k, v) else p)
  else m ++ [(k, v)]

/-- Build a Python dict from a sequence of key/value insertions. -/
def upsertAll {β : Type} (l : List (String × β)) : List (String × β) :=
  l.foldl (fun m p => upsert m p.1 p.2) []

/-- The aggregation of one risk/reward bucket: the win-indicator mean and the
`netPNL` mean, rounded to 4 decimals.  A bucket left empty by the categorical
groupby (which runs without `observed=True`) is still reindexed into the
result, with `NaN` for both aggregates. -/
def rrBucketStats (rows : List Row) : RRStats :=
  if rows.isEmpty then { win_rate := PV.nan, avg_netPNL := PV.nan }
  else { win_rate := PV.num (round4 (winRateOf rows))
         avg_netPNL := PV.num (round4 (meanOf (fun r => r.netPNL) rows)) }

/-- One entry of the risk/reward result dict: the interval key formatted as
`"{left:.2f}-{right:.2f}"` together with the bucket aggregation. -/
def rrEntry (df : List Row) (bins : List ℚ) (idxs : List (Option ℕ)) (j : ℕ) :
    String × RRStats :=
  (fmt2 (if j = 0 then bins.getD 0 0 - 1 / 1000 else bins.getD j 0) ++ "-" ++
      fmt2 (bins.getD (j + 1) 0),
    rrBucketStats (rowsInBin df idxs j))

/-- Embedding of `analyze_risk_reward_patterns`: quartile buckets of
`rr_ratio` (reduced bucket count with duplicate edges dropped for fewer than 4
rows), per-bucket win rate and mean PNL, keyed by the interval formatted as
`"{left:.2f}-{right:.2f}"`.  The groupby over the quantile categorical lacks
`observed=True` (unlike the one in `analyze_position_size_impact`), so every
interval category produces an entry, an empty one with `NaN` aggregates.  The
displayed left edge of the first interval is lowered by `10^-3` (pandas'
default display precision of 3; the model fixes that precision instead of
inferring it). -/
def analyze_risk_reward_patterns (df : List Row) : Except String (List (String × RRStats)) :=
  match finiteVals (df.map (fun r => r.rr_ratio)) with
  | .error e => .error e
  | .ok rrv =>
    let n := df.length
    let step := if n < 4 then qcut rrv (min n 4) none true else qcut rrv 4 none false
    match step with
    | .error e => .error e
    | .ok (bins, idxs) =>
        .ok (upsertAll ((List.range (bins.length - 1)).map (rrEntry df bins idxs)))

/-! ### `get_key_trading_insights` (`app/services/pattern_analyzer.py`) -/

def splitOnCharAux (sep : Char) : List Char → List Char → List (List Char)
  | [], acc => [acc.reverse]
  | c :: cs, acc =>
      if c = sep then acc.reverse :: splitOnCharAux sep cs []
      else splitOnCharAux sep cs (c :: acc)

/-- Python `str.split(sep)` on a single-character separator. -/
def splitOnChar (sep : Char) (l : List Char) : List (List Char) := splitOnCharAux sep l []

/-- Digit-sequence value; `none` for an empty claim of digits is handled by
the callers, a non-digit yields `none`. -/
def digitsVal (cs : List Char) : Option ℕ :=
  cs.foldl (fun acc c =>
    match acc with
    | none => none
    | some a => if c.isDigit then some (a * 10 + (c.toNat - 48)) else none) (some 0)

/-- Python's `float(s)` restricted to plain decimal literals: an optional
sign, digits, an optional fractional part; anything else (in particular the
empty string produced by `''.split('-')[0]` on a negative key) raises. -/
def parseFloatQ (s : String) : Except String ℚ :=
  let err : Except String ℚ := .error ("could not convert string to float: " ++ s)
  let core : List Char → Except String ℚ := fun cs =>
    match splitOnChar '.' cs with
    | [ip] =>
        if ip.isEmpty then err
        else match digitsVal ip with
          | some v => .ok ((v : ℕ) : ℚ)
          | none => err
    | [ip, fp] =>
        if ip.isEmpty ∧ fp.isEmpty then err
        else match digitsVal ip, digitsVal fp with
          | some a, some b => .ok (((a : ℕ) : ℚ) + ((b : ℕ) : ℚ) / ((10 ^ fp.length : ℕ) : ℚ))
          | _, _ => err
    | _ => err
  match s.data with
  | '-' :: rest => match core rest with
    | .ok v => .ok (-v)
    | .error e => .error e
  | cs => core cs

/-- Parse the left endpoint of every risk/reward bucket key
(`float(x.split('-')[0])`), failing like Python's `float` on malformed keys. -/
def parseKeys (ks : List String) : Except String (List (String × ℚ)) :=
  ks.mapM (fun k =>
    match parseFloatQ ⟨(splitOnChar '-' k.data).headD []⟩ with
    | .ok q => Except.ok (k, q)
    | .error e => Except.error e)

/-- Python's `max(iterable, key=f)`: the first element attaining the maximal
key. -/
def argmaxFirst (f : String → ℚ) (h : String) (t : List String) : String :=
  t.foldl (fun best x => if f best < f x then x else best) h

/-- Python's `max(iterable, key=f)` over float keys that may be sentinels: a
candidate displaces the current best exactly when its key compares strictly
greater, and every comparison involving `NaN` is false, so a `NaN`-keyed
element is kept only when it comes first. -/
def argmaxFirstPV (f : String → PV ℚ) (h : String) (t : List String) : String :=
  t.foldl (fun best x => if PV.lt (f best) (f x) then x else best) h

/-- Python's `"{:.2%}"` format on a float that may be a sentinel. -/
def fmtPct2PV (x : PV ℚ) : String :=
  match x with
  | PV.num q => fmtPct2 q
  | PV.pinf => "inf%"
  | PV.ninf => "-inf%"
  | PV.nan => "nan%"

/-- Dict lookup with a default (the callers only look up present keys). -/
def lookupD {β : Type} (l : List (String × β)) (k : String) (d : β) : β :=
  match l.find? (fun p => p.1 == k) with
  | some p => p.2
  | none => d

/-- Embedding of `get_key_trading_insights`: the pair-direction line is
emitted only when some combination has a 100% win rate; the position-size and
risk-reward lines are always emitted (when their analyses succeed), naming the
bucket with the highest win rate (first such bucket in sorted key order). -/
def get_key_trading_insights (df : List Row) : Except String (List String) :=
  let bp := best_pairs (analyze_pair_direction_bias df)
  let l1 : List String :=
    if bp.isEmpty then []
    else ["Pair Direction: " ++ String.intercalate " and " (bp.take 2) ++ " show 100% win rates."]
  match analyze_position_size_impact df with
  | .error e => .error e
  | .ok sa =>
    match (sa.map (fun p => p.1)).insertionSort (fun a b : String => strLeB a b = true) with
    | [] => .error "max() arg is an empty sequence"
    | c :: cs =>
      let bestSize := argmaxFirst (fun k => (lookupD sa k ⟨0, 0, 0⟩).win_rate) c cs
      let line2 := "Position Size: " ++ bestSize ++ " positions have higher win rates (" ++
        fmtPct2 (lookupD sa bestSize ⟨0, 0, 0⟩).win_rate ++ ") and profitability."
      match analyze_risk_reward_patterns df with
      | .error e => .error e
      | .ok ra =>
        match parseKeys (ra.map (fun p => p.1)) with
        | .error e => .error e
        | .ok keyed =>
          match ((keyed.insertionSort (fun a b => a.2 ≤ b.2)).map (fun p => p.1)) with
          | [] => .error "max() arg is an empty sequence"
          | k :: ks =>
            let bestRR := argmaxFirstPV (fun x => (lookupD ra x ⟨PV.num 0, PV.num 0⟩).win_rate) k ks
            let line3 := "Risk-Reward: Higher R:R ratios (" ++ bestRR ++
              ") yield better win rates (" ++
              fmtPct2PV (lookupD ra bestRR ⟨PV.num 0, PV.num 0⟩).win_rate ++ ") and profitability."
            .ok (l1 ++ [line2, line3])

deriving instance DecidableEq for Except

/-- Input refuting C3: four trades with identical sizes, so all quantile
boundaries of `size` coincide. -/
def exC3 : List Trade :=
  [mkTrade 0 "loss" (-5) 1, mkTrade 10 "win" 5 1, mkTrade 20 "loss" (-5) 1,
   mkTrade 30 "win" 5 1]

unseal Rat.sub Rat.mul Rat.inv Rat.add in
/-- Counterexample to C3: with 4 rows of equal size the `n >= 4` branch calls
`pd.qcut` without `duplicates='drop'`, and the duplicate quantile boundaries
raise an error instead of producing fewer, wider buckets. -/
theorem C3_counterexample :
    analyze_position_size_impact (calculate_trade_metrics exC3) =
      Except.error "Bin edges must be unique" := by
  decide

theorem qcutEdges_length (vals : List ℚ) (q : ℕ) : (qcutEdges vals q).length = q + 1 := by
  show ((List.range (q + 1)).map (fun k : ℕ => quantileAt
      (vals.insertionSort (fun a b : ℚ => a ≤ b)) ((k : ℚ) / (q : ℚ)))).length = q + 1
  exact (List.length_map _ _).trans (List.length_range _)

theorem npUnique_length_of_nodup {l : List ℚ} (h : l.Nodup) : (npUnique l).length = l.length := by
  unfold npUnique
  have hperm := List.perm_insertionSort (fun a b : ℚ => a ≤ b) l
  have hnd : (l.insertionSort (fun a b : ℚ => a ≤ b)).Nodup := hperm.nodup_iff.mpr h
  rw [List.dedup_eq_self.mpr hnd]
  exact hperm.length_eq

/-- On inputs whose quantile edges are pairwise distinct, `qcut` succeeds and
produces exactly `q` bins. -/
theorem qcutAssign_ok (bins : List ℚ) (vals : List ℚ) (labels : Option (List String))
    (hl : ∀ ls, labels = some ls → ls.length = bins.length - 1) :
    qcutAssign bins vals labels = .ok (bins, vals.map (binOf bins)) := by
  cases labels with
  | none => rfl
  | some ls =>
      show (if ls.length ≠ bins.length - 1 then _ else _) = _
      rw [if_neg]
      intro hne
      exact hne (hl ls rfl)

theorem qcut_ok_of_nodup (vals : List ℚ) (q : ℕ) (labels : Option (List String))
    (dd : Bool) (hnd : (qcutEdges vals q).Nodup)
    (hl : ∀ ls, labels = some ls → ls.length = q) :
    ∃ bins, qcut vals q labels dd = .ok (bins, vals.map (binOf bins)) ∧
      bins.length = q + 1 := by
  have hulen : (npUnique (qcutEdges vals q)).length = (qcutEdges vals q).length :=
    npUnique_length_of_nodup hnd
  have hedges : (qcutEdges vals q).length = q + 1 := qcutEdges_length vals q
  have hcond : ¬((npUnique (qcutEdges vals q)).length < (qcutEdges vals q).length ∧
      dd = false) := by
    intro hc
    exact absurd hulen (Nat.ne_of_lt hc.1)
  have hblen : (if dd then npUnique (qcutEdges vals q) else qcutEdges vals q).length = q + 1 := by
    cases dd
    · simpa using hedges
    · simpa using hulen.trans hedges
  refine ⟨if dd then npUnique (qcutEdges vals q) else qcutEdges vals q, ?_, hblen⟩
  unfold qcut
  rw [if_neg hcond]
  exact qcutAssign_ok _ vals labels (fun ls hls => by rw [hblen, hl ls hls]; omega)

theorem binOf_lt {bins : List ℚ} {v : ℚ} {j : ℕ} (h : binOf bins v = some j) :
    j + 1 < bins.length := by
  unfold binOf at h
  split at h
  · exact absurd h (by simp)
  · rename_i hcond
    push_neg at hcond
    injection h with hj
    omega

/-- The bucket count target of both quantile analyses: `min(n, 4)` below 4
rows, else 4. -/
def bucketTarget (df : List Row) : ℕ := if df.length < 4 then min df.length 4 else 4

/-- The size-quantile edges the analyzer computes. -/
def sizeEdges (df : List Row) : List ℚ := qcutEdges (df.map (fun r => r.size)) (bucketTarget df)

/-- The label list actually used for the size buckets. -/
def labelsUsed (df : List Row) : List String :=
  if df.length < 4 then sizeLabels.take df.length else sizeLabels

theorem upsert_length_le {β : Type} (m : List (String × β)) (k : String) (v : β) :
    (upsert m k v).length ≤ m.length + 1 := by
  unfold upsert
  split
  · rw [List.length_map]
    omega
  · rw [List.length_append]
    simp

theorem foldl_upsert_length_le {β : Type} (l : List (String × β)) (m : List (String × β)) :
    (l.foldl (fun m q => upsert m q.1 q.2) m).length ≤ m.length + l.length := by
  induction l generalizing m with
  | nil => simp
  | cons p t ih =>
    calc ((p :: t).foldl (fun m q => upsert m q.1 q.2) m).length
        = (t.foldl (fun m q => upsert m q.1 q.2) (upsert m p.1 p.2)).length := rfl
      _ ≤ (upsert m p.1 p.2).length + t.length := ih _
      _ ≤ m.length + 1 + t.length := by
          have := upsert_length_le m p.1 p.2
          omega
      _ = m.length + (p :: t).length := by
          rw [List.length_cons]
          omega

theorem upsertAll_length_le {β : Type} (l : List (String × β)) :
    (upsertAll l).length ≤ l.length := by
  have := foldl_upsert_length_le l []
  simpa [upsertAll] using this

theorem getD_mem_of_lt {α : Type} (l : List α) (j : ℕ) (d : α) (h : j < l.length) :
    l.getD j d ∈ l := by
  rw [List.getD_eq_getElem l d h]
  exact List.getElem_mem h

theorem sizeLabels_length : sizeLabels.length = 4 := rfl

/-- C3 (amended): when the computed quantile boundaries are pairwise distinct
(and the risk/reward ratios are finite), both bucketing analyses succeed,
produce at most as many buckets as rows, and label buckets only from the
(possibly truncated) label list; but when quantile boundaries collide the
analyses raise an error (see the counterexample) rather than degrading to
fewer, wider buckets. -/
theorem C3_amended_distinct_edges_degrade_safely (trades : List Trade) (rrv : List ℚ)
    (h1 : 1 ≤ trades.length)
    (hsz : (sizeEdges (calculate_trade_metrics trades)).Nodup)
    (hrr : finiteVals ((calculate_trade_metrics trades).map (fun r => r.rr_ratio)) =
      Except.ok rrv)
    (hrrnd : (qcutEdges rrv (bucketTarget (calculate_trade_metrics trades))).Nodup) :
    ((∃ res, analyze_position_size_impact (calculate_trade_metrics trades) = Except.ok res) ∧
      ∀ res, analyze_position_size_impact (calculate_trade_metrics trades) = Except.ok res →
        res.length ≤ trades.length ∧
          ∀ kv ∈ res, kv.1 ∈ labelsUsed (calculate_trade_metrics trades)) ∧
    ((∃ res, analyze_risk_reward_patterns (calculate_trade_metrics trades) = Except.ok res) ∧
      ∀ res, analyze_risk_reward_patterns (calculate_trade_metrics trades) = Except.ok res →
        res.length ≤ trades.length) := by
  have hlen : (calculate_trade_metrics trades).length = trades.length :=
    (C1_calculate_trade_metrics_preserves_count_and_sorts trades).1
  set df := calculate_trade_metrics trades with hdf
  by_cases h4 : df.length < 4
  · -- fewer than 4 rows: reduced bucket count, truncated labels, duplicates dropped
    have hq : bucketTarget df = min df.length 4 := if_pos h4
    obtain ⟨bins, hstep, hblen⟩ := qcut_ok_of_nodup (df.map (fun r => r.size))
      (min df.length 4) (some (sizeLabels.take df.length)) true (by rw [← hq]; exact hsz)
      (by
        intro ls hls
        injection hls with hls
        rw [← hls, List.length_take, sizeLabels_length])
    obtain ⟨rbins, hrstep, hrblen⟩ := qcut_ok_of_nodup rrv (min df.length 4) none true
      (by rw [← hq]; exact hrrnd) (by intro ls hls; cases hls)
    constructor
    · constructor
      · cases happ : analyze_position_size_impact df with
        | ok res => exact ⟨res, rfl⟩
        | error e =>
            simp only [analyze_position_size_impact, if_pos h4, hstep] at happ
            exact Except.noConfusion happ
      · intro res hres
        simp only [analyze_position_size_impact, if_pos h4, hstep] at hres
        injection hres with hres
        subst hres
        constructor
        · rw [← hlen]
          calc ((List.range (bins.length - 1)).filterMap _).length
              ≤ (List.range (bins.length - 1)).length := List.length_filterMap_le _ _
            _ = bins.length - 1 := List.length_range _
            _ ≤ df.length := by rw [hblen]; omega
        · intro kv hkv
          obtain ⟨j, hj, hfj⟩ := List.mem_filterMap.mp hkv
          have hjlt : j < bins.length - 1 := List.mem_range.mp hj
          have hjl : j < (sizeLabels.take df.length).length := by
            rw [List.length_take, sizeLabels_length]
            rw [hblen] at hjlt
            omega
          split at hfj
          · cases hfj
          · injection hfj with hfj1
            have hkey : kv.1 = (sizeLabels.take df.length).getD j "" := by rw [← hfj1]
            rw [hkey]
            unfold labelsUsed
            rw [if_pos h4]
            exact getD_mem_of_lt _ _ _ hjl
    · constructor
      · cases happ : analyze_risk_reward_patterns df with
        | ok res => exact ⟨res, rfl⟩
        | error e =>
            simp only [analyze_risk_reward_patterns, hrr, if_pos h4, hrstep] at happ
            exact Except.noConfusion happ
      · intro res hres
        simp only [analyze_risk_reward_patterns, hrr, if_pos h4, hrstep] at hres
        injection hres with hres
        subst hres
        rw [← hlen]
        calc (upsertAll ((List.range (rbins.length - 1)).map _)).length
            ≤ ((List.range (rbins.length - 1)).map _).length := upsertAll_length_le _
          _ = (List.range (rbins.length - 1)).length := List.length_map _ _
          _ = rbins.length - 1 := List.length_range _
          _ ≤ df.length := by rw [hrblen]; omega
  · -- at least 4 rows: 4 buckets, full label list
    have hq : bucketTarget df = 4 := if_neg h4
    obtain ⟨bins, hstep, hblen⟩ := qcut_ok_of_nodup (df.map (fun r => r.size)) 4
      (some sizeLabels) false (by rw [← hq]; exact hsz)
      (by intro ls hls; injection hls with hls; rw [← hls]; exact sizeLabels_length)
    obtain ⟨rbins, hrstep, hrblen⟩ := qcut_ok_of_nodup rrv 4 none false
      (by rw [← hq]; exact hrrnd) (by intro ls hls; cases hls)
    constructor
    · constructor
      · cases happ : analyze_position_size_impact df with
        | ok res => exact ⟨res, rfl⟩
        | error e =>
            simp only [analyze_position_size_impact, if_neg h4, hstep] at happ
            exact Except.noConfusion happ
      · intro res hres
        simp only [analyze_position_size_impact, if_neg h4, hstep] at hres
        injection hres with hres
        subst hres
        constructor
        · rw [← hlen]
          calc ((List.range (bins.length - 1)).filterMap _).length
              ≤ (List.range (bins.length - 1)).length := List.length_filterMap_le _ _
            _ = bins.length - 1 := List.length_range _
            _ ≤ df.length := by rw [hblen]; omega
        · intro kv hkv
          obtain ⟨j, hj, hfj⟩ := List.mem_filterMap.mp hkv
          have hjlt : j < bins.length - 1 := List.mem_range.mp hj
          have hjl : j < sizeLabels.length := by
            rw [sizeLabels_length]
            rw [hblen] at hjlt
            omega
          split at hfj
          · cases hfj
          · injection hfj with hfj1
            have hkey : kv.1 = sizeLabels.getD j "" := by rw [← hfj1]
            rw [hkey]
            unfold labelsUsed
            rw [if_neg h4]
            exact getD_mem_of_lt _ _ _ hjl
    · constructor
      · cases happ : analyze_risk_reward_patterns df with
        | ok res => exact ⟨res, rfl⟩
        | error e =>
            simp only [analyze_risk_reward_patterns, hrr, if_neg h4, hrstep] at happ
            exact Except.noConfusion happ
      · intro res hres
        simp only [analyze_risk_reward_patterns, hrr, if_neg h4, hrstep] at hres
        injection hres with hres
        subst hres
        rw [← hlen]
        calc (upsertAll ((List.range (rbins.length - 1)).map _)).length
            ≤ ((List.range (rbins.length - 1)).map _).length := upsertAll_length_le _
          _ = (List.range (rbins.length - 1)).length := List.length_map _ _
          _ = rbins.length - 1 := List.length_range _
          _ ≤ df.length := by rw [hrblen]; omega

/-- Two-trade input with distinct sizes and distinct finite risk/reward
ratios, both losses; used by several concrete witnesses. -/
def exSmall : List Trade :=
  [{ pair := "EURUSD", direction := "long", status := "loss", strategy := none
     date := 0, accountBalance := 1000, entryPrice := 10, size := 1
     stopLoss := 9, target := 12, exitPrice := 11, netPNL := -5, accountChange := -1 },
   { pair := "EURUSD", direction := "short", status := "loss", strategy := none
     date := 10, accountBalance := 995, entryPrice := 10, size := 2
     stopLoss := 8, target := 16, exitPrice := 9, netPNL := -4, accountChange := -1 }]

unseal Rat.sub Rat.mul Rat.inv Rat.add in
/-- Witness for C3 (amended): the two-trade input has distinct quantile
boundaries for both columns, and both analyses succeed within the stated
bounds. -/
theorem C3_amended_distinct_edges_degrade_safely_witness :
    (1 ≤ exSmall.length ∧ (sizeEdges (calculate_trade_metrics exSmall)).Nodup ∧
        finiteVals ((calculate_trade_metrics exSmall).map (fun r => r.rr_ratio)) =
          Except.ok [2, 3] ∧
        (qcutEdges [(2 : ℚ), 3] (bucketTarget (calculate_trade_metrics exSmall))).Nodup) ∧
      (((∃ res, analyze_position_size_impact (calculate_trade_metrics exSmall) =
            Except.ok res) ∧
          ∀ res, analyze_position_size_impact (calculate_trade_metrics exSmall) =
            Except.ok res →
            res.length ≤ exSmall.length ∧
              ∀ kv ∈ res, kv.1 ∈ labelsUsed (calculate_trade_metrics exSmall)) ∧
        ((∃ res, analyze_risk_reward_patterns (calculate_trade_metrics exSmall) =
            Except.ok res) ∧
          ∀ res, analyze_risk_reward_patterns (calculate_trade_metrics exSmall) =
            Except.ok res → res.length ≤ exSmall.length)) :=
  ⟨⟨by decide, by decide, by decide, by decide⟩,
    C3_amended_distinct_edges_degrade_safely exSmall [2, 3] (by decide) (by decide)
      (by decide) (by decide)⟩

unseal Rat.sub Rat.mul Rat.inv Rat.add in
/-- Counterexample to C9: on the all-loss input no pair/direction combination
has a 100% win rate, and the emitted digest has 2 lines, not 3. -/
theorem C9_counterexample :
    Except.map List.length (get_key_trading_insights (calculate_trade_metrics exSmall)) =
        Except.ok 2 ∧
      (Except.ok 2 : Except String ℕ) ≠ Except.ok 3 := by
  decide

/-- C9 (amended): whenever `get_key_trading_insights` succeeds, its digest has
3 lines when some pair/direction combination has a 100% win rate (the
pair-direction line is conditional) and 2 lines otherwise; the position-size
and risk-reward lines are always present on success. -/
theorem C9_amended_digest_line_count (trades : List Trade) (n : ℕ)
    (h : Except.map List.length (get_key_trading_insights (calculate_trade_metrics trades)) =
      Except.ok n) :
    n = if best_pairs (analyze_pair_direction_bias (calculate_trade_metrics trades)) = []
      then 2 else 3 := by
  simp only [get_key_trading_insights] at h
  split at h
  · simp [Except.map] at h
  · split at h
    · simp [Except.map] at h
    · split at h
      · simp [Except.map] at h
      · split at h
        · simp [Except.map] at h
        · split at h
          · simp [Except.map] at h
          · simp only [Except.map, List.length_append] at h
            by_cases hbp :
                best_pairs (analyze_pair_direction_bias (calculate_trade_metrics trades)) = []
            · rw [if_pos hbp]
              simp [hbp] at h
              omega
            · rw [if_neg hbp]
              have hne : (best_pairs
                  (analyze_pair_direction_bias (calculate_trade_metrics trades))).isEmpty =
                  false := by
                rw [Bool.eq_false_iff]
                intro hc
                exact hbp (List.isEmpty_iff.mp hc)
              simp [hne] at h
              omega

unseal Rat.sub Rat.mul Rat.inv Rat.add in
/-- Witness for C9 (amended): the all-loss two-trade input yields a successful
2-line digest, matching the empty set of 100%-win-rate combinations. -/
theorem C9_amended_digest_line_count_witness :
    Except.map List.length (get_key_trading_insights (calculate_trade_metrics exSmall)) =
        Except.ok 2 ∧
      2 = if best_pairs (analyze_pair_direction_bias (calculate_trade_metrics exSmall)) = []
        then 2 else 3 :=
  ⟨by decide, C9_amended_digest_line_count exSmall 2 (by decide)⟩

/-! ### C10: win-rate bounds -/

/-- The `win_rate` values reported by `analyze_position_size_impact` (empty on
failure, matching the claim's "for every input on which they succeed"). -/
def sizeWinRates (df : List Row) : List ℚ :=
  match analyze_position_size_impact df with
  | .ok res => res.map (fun p => p.2.win_rate)
  | .error _ => []

/-- The `win_rate` values reported by `analyze_pair_direction_bias`. -/
def pairWinRates (df : List Row) : List ℚ :=
  (analyze_pair_direction_bias df).flatMap (fun pd => pd.2.map (fun q => q.2.win_rate))

/-- The `win_rate` values reported by `analyze_risk_reward_patterns` (empty on
failure); floats that may be the undefined marker. -/
def rrWinRates (df : List Row) : List (PV ℚ) :=
  match analyze_risk_reward_patterns df with
  | .ok res => res.map (fun p => p.2.win_rate)
  | .error _ => []

theorem winRateOf_bounds (rows : List Row) : 0 ≤ winRateOf rows ∧ winRateOf rows ≤ 1 := by
  unfold winRateOf
  rcases Nat.eq_zero_or_pos rows.length with h | h
  · rw [h]
    norm_num
  · have hc : ((rows.countP (fun r => r.status == "win") : ℕ) : ℚ) ≤ ((rows.length : ℕ) : ℚ) := by
      exact_mod_cast List.countP_le_length _
    have hl : (0 : ℚ) < ((rows.length : ℕ) : ℚ) := by exact_mod_cast h
    constructor
    · positivity
    · rw [div_le_one hl]
      exact hc

theorem roundHalfEven_bounds (x : ℚ) : ⌊x⌋ ≤ roundHalfEven x ∧ roundHalfEven x ≤ ⌊x⌋ + 1 := by
  unfold roundHalfEven
  split_ifs <;> omega

theorem roundHalfEven_intCast (b : ℤ) : roundHalfEven (b : ℚ) = b := by
  unfold roundHalfEven
  rw [Int.floor_intCast]
  norm_num

theorem roundHalfEven_le_of_le (x : ℚ) (b : ℤ) (h : x ≤ (b : ℚ)) : roundHalfEven x ≤ b := by
  rcases lt_or_eq_of_le h with hlt | heq
  · have hfl : ⌊x⌋ < b := Int.floor_lt.mpr (by exact_mod_cast hlt)
    have := (roundHalfEven_bounds x).2
    omega
  · rw [heq, roundHalfEven_intCast]

theorem round4_bounds (x : ℚ) (h0 : 0 ≤ x) (h1 : x ≤ 1) : 0 ≤ round4 x ∧ round4 x ≤ 1 := by
  unfold round4
  have hge : (0 : ℤ) ≤ roundHalfEven (x * 10000) := by
    have hf : (0 : ℤ) ≤ ⌊x * 10000⌋ := Int.floor_nonneg.mpr (by positivity)
    have := (roundHalfEven_bounds (x * 10000)).1
    omega
  have hle : roundHalfEven (x * 10000) ≤ (10000 : ℤ) := by
    apply roundHalfEven_le_of_le
    push_cast
    nlinarith
  constructor
  · positivity
  · rw [div_le_one (by norm_num)]
    exact_mod_cast hle

theorem round4_winRate_bounds (rows : List Row) :
    0 ≤ round4 (winRateOf rows) ∧ round4 (winRateOf rows) ≤ 1 :=
  round4_bounds _ (winRateOf_bounds rows).1 (winRateOf_bounds rows).2

theorem mem_upsert {β : Type} {m : List (String × β)} {k : String} {v : β} {p : String × β}
    (h : p ∈ upsert m k v) : p ∈ m ∨ p = (k, v) := by
  unfold upsert at h
  split at h
  · obtain ⟨q, hq, hpq⟩ := List.mem_map.mp h
    by_cases hk : (q.1 == k) = true
    · right
      rw [← hpq, if_pos hk]
    · left
      rw [← hpq, if_neg hk]
      exact hq
  · rcases List.mem_append.mp h with h1 | h1
    · left
      exact h1
    · right
      simpa using h1

theorem mem_foldl_upsert {β : Type} (l : List (String × β)) (m : List (String × β))
    (p : String × β) (h : p ∈ l.foldl (fun acc q => upsert acc q.1 q.2) m) :
    p ∈ m ∨ p ∈ l := by
  induction l generalizing m with
  | nil =>
      left
      exact h
  | cons a t ih =>
      rcases ih (upsert m a.1 a.2) h with h1 | h1
      · rcases mem_upsert h1 with h2 | h2
        · left
          exact h2
        · right
          rw [h2]
          exact List.mem_cons_self a t
      · right
        exact List.mem_cons_of_mem a h1

theorem mem_upsertAll {β : Type} {l : List (String × β)} {p : String × β}
    (h : p ∈ upsertAll l) : p ∈ l := by
  rcases mem_foldl_upsert l [] p h with h1 | h1
  · cases h1
  · exact h1

theorem rrEntry_snd (df : List Row) (bins : List ℚ) (idxs : List (Option ℕ)) (j : ℕ) :
    (rrEntry df bins idxs j).2 = rrBucketStats (rowsInBin df idxs j) := rfl

/-- Trade constructor with an explicit target: entry 10 and stop 9 give risk 1,
so the risk/reward ratio is `target - 10`; an all-loss variant of `mkTrade`. -/
def mkTradeTgt (d : Int) (tgt : ℚ) (sz : ℚ) : Trade :=
  { pair := "EURUSD", direction := "long", status := "loss", strategy := none
    date := d, accountBalance := 1000, entryPrice := 10, size := sz
    stopLoss := 9, target := tgt, exitPrice := 9, netPNL := -5, accountChange := -1 }

/-- Input refuting C10: four trades whose risk/reward ratios are 1, 2, 2, 3.
The quantile edges 1, 1.75, 2, 2.25, 3 are pairwise distinct, but the bucket
(2.00, 2.25] contains no trade; the groupby without `observed=True` still
emits it, with an undefined win rate. -/
def exC10 : List Trade :=
  [mkTradeTgt 0 11 1, mkTradeTgt 10 12 2, mkTradeTgt 20 12 3, mkTradeTgt 30 13 4]

unseal Rat.sub Rat.mul Rat.inv Rat.add in
/-- Counterexample to C10: on `exC10` the reported risk/reward win rates
include the undefined (`NaN`) marker, for the empty bucket (2.00, 2.25], and
under float comparison semantics that value does not lie in the closed
interval `[0, 1]`. -/
theorem C10_counterexample :
    PV.nan ∈ rrWinRates (calculate_trade_metrics exC10) ∧
      ¬(PV.le (PV.num (0 : ℚ)) PV.nan ∧ PV.le PV.nan (PV.num (1 : ℚ))) := by
  decide

/-- C10 (amended): every `win_rate` reported by `analyze_position_size_impact`
and `analyze_pair_direction_bias` (whose groupbys see only observed groups)
lies in the closed interval `[0, 1]`; a `win_rate` reported by
`analyze_risk_reward_patterns` is either a finite value in `[0, 1]` or the
undefined (`NaN`) marker, the latter for an interval category that its
`observed=False` groupby emits although no trade falls in it. -/
theorem C10_amended_win_rates_unit_or_unobserved_nan (trades : List Trade) (x : ℚ) (w : PV ℚ)
    (hx : x ∈ sizeWinRates (calculate_trade_metrics trades) ++
      pairWinRates (calculate_trade_metrics trades))
    (hw : w ∈ rrWinRates (calculate_trade_metrics trades)) :
    (0 ≤ x ∧ x ≤ 1) ∧ (w = PV.nan ∨ ∃ q, w = PV.num q ∧ 0 ≤ q ∧ q ≤ 1) := by
  set df := calculate_trade_metrics trades with hdf
  constructor
  · rcases List.mem_append.mp hx with hxs | hxp
    · -- size buckets
      unfold sizeWinRates at hxs
      split at hxs
      · rename_i res heq
        simp only [analyze_position_size_impact] at heq
        split at heq
        · exact absurd heq (by simp)
        · injection heq with heq
          subst heq
          obtain ⟨kv, hkv, hkvx⟩ := List.mem_map.mp hxs
          obtain ⟨j, hj, hfj⟩ := List.mem_filterMap.mp hkv
          split at hfj
          · cases hfj
          · injection hfj with hfj
            rw [← hkvx, ← hfj]
            exact round4_winRate_bounds _
      · cases hxs
    · -- pair/direction groups
      unfold pairWinRates analyze_pair_direction_bias at hxp
      obtain ⟨pd, hpd, hxin⟩ := List.mem_flatMap.mp hxp
      obtain ⟨pr, hpr, hpd2⟩ := List.mem_map.mp hpd
      rw [← hpd2] at hxin
      obtain ⟨q, hq, hqx⟩ := List.mem_map.mp hxin
      obtain ⟨d, hd, hq2⟩ := List.mem_map.mp hq
      rw [← hqx, ← hq2]
      exact round4_winRate_bounds _
  · -- risk/reward buckets: observed buckets are bounded, unobserved ones NaN
    unfold rrWinRates at hw
    split at hw
    · rename_i res heq
      simp only [analyze_risk_reward_patterns] at heq
      split at heq
      · exact absurd heq (by simp)
      · split at heq
        · exact absurd heq (by simp)
        · injection heq with heq
          subst heq
          obtain ⟨kv, hkv, hkvx⟩ := List.mem_map.mp hw
          have hkv2 := mem_upsertAll hkv
          obtain ⟨j, hj, hfj⟩ := List.mem_map.mp hkv2
          rw [← hkvx, ← hfj, rrEntry_snd]
          unfold rrBucketStats
          split
          · left
            rfl
          · right
            exact ⟨_, rfl, (round4_winRate_bounds _).1, (round4_winRate_bounds _).2⟩
    · cases hw

unseal Rat.sub Rat.mul Rat.inv Rat.add in
/-- Witness for C10 (amended): on `exC10` the win rate 0 occurs among the
observed analyses' rates and lies in the unit interval, while the undefined
marker occurs among the risk/reward rates and falls under the amended
disjunction's first case. -/
theorem C10_amended_win_rates_unit_or_unobserved_nan_witness :
    ((0 : ℚ) ∈ sizeWinRates (calculate_trade_metrics exC10) ++
        pairWinRates (calculate_trade_metrics exC10) ∧
      PV.nan ∈ rrWinRates (calculate_trade_metrics exC10)) ∧
      ((0 ≤ (0 : ℚ) ∧ (0 : ℚ) ≤ 1) ∧
        (PV.nan = (PV.nan : PV ℚ) ∨ ∃ q, (PV.nan : PV ℚ) = PV.num q ∧ 0 ≤ q ∧ q ≤ 1)) :=
  ⟨⟨by decide, by decide⟩,
    C10_amended_win_rates_unit_or_unobserved_nan exC10 0 PV.nan (by decide) (by decide)⟩

/-! ### `calculate_sharpe_ratio` and `determine_risk_level`
(`app/services/behavior_analyzer.py`).  These involve `np.sqrt`, so they are
modelled over the reals (noncomputable); the trade data stays rational. -/

/-- Pandas `Series.mean()` over the reals (`NaN` on an empty series). -/
noncomputable def seriesMeanR (xs : List ℝ) : PV ℝ :=
  if xs.isEmpty then PV.nan else PV.num (xs.sum / xs.length)

/-- The sample variance with `ddof=1`, as used by pandas `Series.std()`. -/
noncomputable def sampleVar (xs : List ℝ) : ℝ :=
  (xs.map (fun x => (x - xs.sum / xs.length) ^ 2)).sum / ((xs.length : ℝ) - 1)

/-- Pandas `Series.std()` (`NaN` for fewer than two observations). -/
noncomputable def seriesStdR (xs : List ℝ) : PV ℝ :=
  if xs.length ≤ 1 then PV.nan else PV.num (Real.sqrt (sampleVar xs))

/-- `mean/std * sqrt(252)` over a list of returns, with float sentinel
semantics. -/
noncomputable def sharpeVals (xs : List ℝ) : PV ℝ :=
  PV.mul (PV.div (seriesMeanR xs) (seriesStdR xs)) (PV.num (Real.sqrt 252))

/-- Embedding of `calculate_sharpe_ratio`:
`returns.mean() / returns.std() * np.sqrt(252)` over the `accountChange`
column. -/
noncomputable def calculate_sharpe_ratio (df : List Row) : PV ℝ :=
  sharpeVals (df.map (fun r => (r.accountChange : ℝ)))

def cummaxAux (m : ℚ) : List ℚ → List ℚ
  | [] => []
  | x :: xs => (max m x) :: cummaxAux (max m x) xs

/-- Pandas `Series.cummax()`. -/
def cummax : List ℚ → List ℚ
  | [] => []
  | x :: xs => x :: cummaxAux x xs

/-- Pandas `Series.max()` (`NaN` on an empty series). -/
def seriesMaxQ : List ℚ → PV ℚ
  | [] => PV.nan
  | x :: xs => PV.num (xs.foldl max x)

/-- Embedding of the maximum drawdown computed by `determine_risk_level`:
`(accountBalance.cummax() - accountBalance).max() / accountBalance.iloc[0]`
over the date-sorted table (float division semantics for a zero initial
balance). -/
def max_drawdown (df : List Row) : PV ℚ :=
  PV.div
    (seriesMaxQ (List.zipWith (fun m b => m - b)
      (cummax (df.map (fun r => r.accountBalance))) (df.map (fun r => r.accountBalance))))
    (PV.num (df.map (fun r => r.accountBalance)).headI)

/-- Embedding of `determine_risk_level`: the strict two-threshold rule table,
evaluated in priority order, with IEEE comparison semantics (a `NaN` Sharpe
ratio or drawdown fails every comparison, giving "High"). -/
noncomputable def determine_risk_level (df : List Row) : String :=
  if PV.lt (PV.num ((3 : ℝ) / 2)) (calculate_sharpe_ratio df) ∧
      PV.lt (max_drawdown df) (PV.num ((1 : ℚ) / 10)) then "Low"
  else if PV.lt (PV.num ((1 : ℝ) / 2)) (calculate_sharpe_ratio df) ∧
      PV.lt (max_drawdown df) (PV.num ((1 : ℚ) / 5)) then "Moderate"
  else "High"

/-- C6: `determine_risk_level` is exactly the strict rule table over the
Sharpe ratio and the maximum drawdown, evaluated in priority order; boundary
values (Sharpe exactly 1.5, drawdown exactly 0.10) do not qualify as "Low". -/
theorem C6_risk_level_rule_table (trades : List Trade) (_hne : trades ≠ []) :
    (determine_risk_level (calculate_trade_metrics trades) = "Low" ↔
      PV.lt (PV.num ((3 : ℝ) / 2)) (calculate_sharpe_ratio (calculate_trade_metrics trades)) ∧
        PV.lt (max_drawdown (calculate_trade_metrics trades)) (PV.num ((1 : ℚ) / 10))) ∧
    (determine_risk_level (calculate_trade_metrics trades) = "Moderate" ↔
      ¬(PV.lt (PV.num ((3 : ℝ) / 2)) (calculate_sharpe_ratio (calculate_trade_metrics trades)) ∧
          PV.lt (max_drawdown (calculate_trade_metrics trades)) (PV.num ((1 : ℚ) / 10))) ∧
        (PV.lt (PV.num ((1 : ℝ) / 2)) (calculate_sharpe_ratio (calculate_trade_metrics trades)) ∧
          PV.lt (max_drawdown (calculate_trade_metrics trades)) (PV.num ((1 : ℚ) / 5)))) ∧
    (determine_risk_level (calculate_trade_metrics trades) = "High" ↔
      ¬(PV.lt (PV.num ((3 : ℝ) / 2)) (calculate_sharpe_ratio (calculate_trade_metrics trades)) ∧
          PV.lt (max_drawdown (calculate_trade_metrics trades)) (PV.num ((1 : ℚ) / 10))) ∧
        ¬(PV.lt (PV.num ((1 : ℝ) / 2)) (calculate_sharpe_ratio (calculate_trade_metrics trades)) ∧
          PV.lt (max_drawdown (calculate_trade_metrics trades)) (PV.num ((1 : ℚ) / 5)))) ∧
    (calculate_sharpe_ratio (calculate_trade_metrics trades) = PV.num ((3 : ℝ) / 2) →
      determine_risk_level (calculate_trade_metrics trades) ≠ "Low") ∧
    (max_drawdown (calculate_trade_metrics trades) = PV.num ((1 : ℚ) / 10) →
      determine_risk_level (calculate_trade_metrics trades) ≠ "Low") := by
  set df := calculate_trade_metrics trades with hdf
  by_cases hA : PV.lt (PV.num ((3 : ℝ) / 2)) (calculate_sharpe_ratio df) ∧
      PV.lt (max_drawdown df) (PV.num ((1 : ℚ) / 10))
  · have hd : determine_risk_level df = "Low" := by
      unfold determine_risk_level
      rw [if_pos hA]
    refine ⟨⟨fun _ => hA, fun _ => hd⟩, ⟨fun hm => ?_, fun hc => absurd hA hc.1⟩,
      ⟨fun hh => ?_, fun hc => absurd hA hc.1⟩, fun hs => ?_, fun hddv => ?_⟩
    · rw [hd] at hm
      exact absurd hm (by decide)
    · rw [hd] at hh
      exact absurd hh (by decide)
    · exfalso
      rw [hs] at hA
      exact lt_irrefl _ hA.1
    · exfalso
      rw [hddv] at hA
      exact lt_irrefl _ hA.2
  · by_cases hB : PV.lt (PV.num ((1 : ℝ) / 2)) (calculate_sharpe_ratio df) ∧
        PV.lt (max_drawdown df) (PV.num ((1 : ℚ) / 5))
    · have hd : determine_risk_level df = "Moderate" := by
        unfold determine_risk_level
        rw [if_neg hA, if_pos hB]
      refine ⟨⟨fun hl => ?_, fun hc => absurd hc hA⟩, ⟨fun _ => ⟨hA, hB⟩, fun _ => hd⟩,
        ⟨fun hh => ?_, fun hc => absurd hB hc.2⟩, fun _ => ?_, fun _ => ?_⟩
      · rw [hd] at hl
        exact absurd hl (by decide)
      · rw [hd] at hh
        exact absurd hh (by decide)
      · rw [hd]
        decide
      · rw [hd]
        decide
    · have hd : determine_risk_level df = "High" := by
        unfold determine_risk_level
        rw [if_neg hA, if_neg hB]
      refine ⟨⟨fun hl => ?_, fun hc => absurd hc hA⟩, ⟨fun hm => ?_, fun hc => absurd hc.2 hB⟩,
        ⟨fun _ => ⟨hA, hB⟩, fun _ => hd⟩, fun _ => ?_, fun _ => ?_⟩
      · rw [hd] at hl
        exact absurd hl (by decide)
      · rw [hd] at hm
        exact absurd hm (by decide)
      · rw [hd]
        decide
      · rw [hd]
        decide

/-- Witness for C6: the two-trade input is non-empty and satisfies the rule
table characterization. -/
theorem C6_risk_level_rule_table_witness :
    exSmall ≠ [] ∧
    ((determine_risk_level (calculate_trade_metrics exSmall) = "Low" ↔
      PV.lt (PV.num ((3 : ℝ) / 2)) (calculate_sharpe_ratio (calculate_trade_metrics exSmall)) ∧
        PV.lt (max_drawdown (calculate_trade_metrics exSmall)) (PV.num ((1 : ℚ) / 10))) ∧
    (determine_risk_level (calculate_trade_metrics exSmall) = "Moderate" ↔
      ¬(PV.lt (PV.num ((3 : ℝ) / 2)) (calculate_sharpe_ratio (calculate_trade_metrics exSmall)) ∧
          PV.lt (max_drawdown (calculate_trade_metrics exSmall)) (PV.num ((1 : ℚ) / 10))) ∧
        (PV.lt (PV.num ((1 : ℝ) / 2)) (calculate_sharpe_ratio (calculate_trade_metrics exSmall)) ∧
          PV.lt (max_drawdown (calculate_trade_metrics exSmall)) (PV.num ((1 : ℚ) / 5)))) ∧
    (determine_risk_level (calculate_trade_metrics exSmall) = "High" ↔
      ¬(PV.lt (PV.num ((3 : ℝ) / 2)) (calculate_sharpe_ratio (calculate_trade_metrics exSmall)) ∧
          PV.lt (max_drawdown (calculate_trade_metrics exSmall)) (PV.num ((1 : ℚ) / 10))) ∧
        ¬(PV.lt (PV.num ((1 : ℝ) / 2)) (calculate_sharpe_ratio (calculate_trade_metrics exSmall)) ∧
          PV.lt (max_drawdown (calculate_trade_metrics exSmall)) (PV.num ((1 : ℚ) / 5)))) ∧
    (calculate_sharpe_ratio (calculate_trade_metrics exSmall) = PV.num ((3 : ℝ) / 2) →
      determine_risk_level (calculate_trade_metrics exSmall) ≠ "Low") ∧
    (max_drawdown (calculate_trade_metrics exSmall) = PV.num ((1 : ℚ) / 10) →
      determine_risk_level (calculate_trade_metrics exSmall) ≠ "Low")) :=
  ⟨by decide, C6_risk_level_rule_table exSmall (by decide)⟩

theorem isEmpty_false_of_ne {α : Type} {l : List α} (h : l ≠ []) : l.isEmpty = false := by
  rw [Bool.eq_false_iff]
  intro hc
  exact h (List.isEmpty_iff.mp hc)

theorem listSum_map_mul (k : ℝ) (l : List ℝ) : (l.map (fun x => k * x)).sum = k * l.sum := by
  induction l with
  | nil => simp
  | cons x t ih => simp [ih, mul_add]

theorem listSum_map_mul_fn (k : ℝ) (l : List ℝ) (f : ℝ → ℝ) :
    (l.map (fun x => k * f x)).sum = k * (l.map f).sum := by
  induction l with
  | nil => simp
  | cons x t ih => simp [ih, mul_add]

theorem seriesMeanR_of_ne {xs : List ℝ} (h : xs ≠ []) :
    seriesMeanR xs = PV.num (xs.sum / xs.length) := by
  unfold seriesMeanR
  rw [isEmpty_false_of_ne h]
  rfl

theorem seriesStdR_of_le {xs : List ℝ} (h : xs.length ≤ 1) : seriesStdR xs = PV.nan := by
  unfold seriesStdR
  rw [if_pos h]

theorem seriesStdR_of_lt {xs : List ℝ} (h : ¬xs.length ≤ 1) :
    seriesStdR xs = PV.num (Real.sqrt (sampleVar xs)) := by
  unfold seriesStdR
  rw [if_neg h]

/-- The Sharpe computation depends only on the multiset of returns. -/
theorem sharpeVals_perm (xs ys : List ℝ) (h : xs.Perm ys) : sharpeVals xs = sharpeVals ys := by
  by_cases hx : xs = []
  · subst hx
    rw [h.nil_eq]
  · have hy : ys ≠ [] := by
      intro hc
      subst hc
      exact hx h.eq_nil
    have hlen := h.length_eq
    have hsum := h.sum_eq
    have hvar : sampleVar xs = sampleVar ys := by
      unfold sampleVar
      rw [hsum, hlen]
      congr 1
      exact (h.map _).sum_eq
    unfold sharpeVals seriesMeanR seriesStdR
    rw [isEmpty_false_of_ne hx, isEmpty_false_of_ne hy, hsum, hlen, hvar]

theorem pv_div_scale (k m s : ℝ) (hk : 0 < k) :
    PV.div (PV.num (k * m)) (PV.num (k * s)) = PV.div (PV.num m) (PV.num s) := by
  by_cases hs : s = 0
  · subst hs
    rw [mul_zero]
    by_cases hm : m = 0
    · subst hm
      rw [mul_zero]
    · have hkm : k * m ≠ 0 := mul_ne_zero (ne_of_gt hk) hm
      by_cases hmp : 0 < m
      · have hkmp : 0 < k * m := mul_pos hk hmp
        simp [PV.div, hm, hkm, hmp, hkmp]
      · have hkmp : ¬0 < k * m := by
          rw [not_lt]
          exact mul_nonpos_of_nonneg_of_nonpos hk.le (le_of_not_lt hmp)
        simp [PV.div, hm, hkm, hmp, hkmp]
  · have hks : k * s ≠ 0 := mul_ne_zero (ne_of_gt hk) hs
    simp [PV.div, hs, hks]
    rw [mul_div_mul_left m s (ne_of_gt hk)]

/-- Scaling every return by a positive constant leaves the Sharpe value
unchanged (mean and standard deviation scale together). -/
theorem sharpeVals_scale (xs : List ℝ) (k : ℝ) (hk : 0 < k) :
    sharpeVals (xs.map (fun x => k * x)) = sharpeVals xs := by
  by_cases hx : xs = []
  · subst hx
    rfl
  · have hxm : xs.map (fun x => k * x) ≠ [] := by
      simpa using hx
    have hlen : (xs.map (fun x => k * x)).length = xs.length := List.length_map _ _
    have hsum := listSum_map_mul k xs
    by_cases h1 : xs.length ≤ 1
    · have h1m : (xs.map (fun x => k * x)).length ≤ 1 := by
        rw [hlen]
        exact h1
      unfold sharpeVals seriesMeanR seriesStdR
      rw [isEmpty_false_of_ne hx, isEmpty_false_of_ne hxm, if_pos h1, if_pos h1m]
      rfl
    · have h1m : ¬(xs.map (fun x => k * x)).length ≤ 1 := by
        rw [hlen]
        exact h1
      have hmean : (xs.map (fun x => k * x)).sum / ((xs.map (fun x => k * x)).length : ℝ) =
          k * (xs.sum / (xs.length : ℝ)) := by
        rw [hsum, hlen, mul_div_assoc]
      have hvar : sampleVar (xs.map (fun x => k * x)) = k ^ 2 * sampleVar xs := by
        unfold sampleVar
        rw [hlen, hsum, List.map_map]
        have hfun : ((fun y => (y - k * xs.sum / (xs.length : ℝ)) ^ 2) ∘ fun x => k * x) =
            fun x => k ^ 2 * ((x - xs.sum / (xs.length : ℝ)) ^ 2) := by
          funext x
          show (k * x - k * xs.sum / (xs.length : ℝ)) ^ 2 = _
          ring
        rw [hfun, listSum_map_mul_fn]
        ring
      have hstd : Real.sqrt (sampleVar (xs.map (fun x => k * x))) =
          k * Real.sqrt (sampleVar xs) := by
        rw [hvar, Real.sqrt_mul (sq_nonneg k), Real.sqrt_sq hk.le]
      unfold sharpeVals
      rw [seriesMeanR_of_ne hx, seriesMeanR_of_ne hxm, seriesStdR_of_lt h1,
        seriesStdR_of_lt h1m, hstd, hlen, hsum, mul_div_assoc]
      rw [pv_div_scale _ _ _ hk]

/-- The `accountChange` column of the sorted table is a permutation of the
input records' `accountChange` values. -/
theorem ctm_accountChange_perm (l : List Trade) :
    ((calculate_trade_metrics l).map (fun r => (r.accountChange : ℝ))).Perm
      (l.map (fun t => (t.accountChange : ℝ))) := by
  unfold calculate_trade_metrics
  have h := (List.perm_insertionSort dateLe (l.map deriveRow)).map
    (fun r : Row => (r.accountChange : ℝ))
  rw [List.map_map] at h
  exact h

/-- The Sharpe value of a constant pair of returns: zero standard deviation,
so the mean is divided by zero with float semantics. -/
theorem sharpeVals_pair (a : ℝ) :
    sharpeVals [a, a] =
      PV.mul (PV.div (PV.num a) (PV.num 0)) (PV.num (Real.sqrt 252)) := by
  have hsum : ([a, a] : List ℝ).sum = 2 * a := by
    simp
    ring
  have hvar : sampleVar [a, a] = 0 := by
    unfold sampleVar
    rw [hsum]
    norm_num
  have hmean : ([a, a] : List ℝ).sum / (([a, a] : List ℝ).length : ℝ) = a := by
    rw [hsum]
    norm_num
  unfold sharpeVals seriesMeanR seriesStdR
  rw [hvar, Real.sqrt_zero]
  norm_num [hmean]

/-- C7: multiplying every `accountChange` by a positive constant leaves the
Sharpe ratio unchanged, but an additive shift can change it. -/
theorem C7_sharpe_scale_invariant_not_shift_invariant :
    (∀ (trades : List Trade) (k : ℚ), 0 < k →
        calculate_sharpe_ratio (calculate_trade_metrics
            (trades.map (fun t => { t with accountChange := k * t.accountChange }))) =
          calculate_sharpe_ratio (calculate_trade_metrics trades)) ∧
      ∃ (trades : List Trade) (c : ℚ),
        calculate_sharpe_ratio (calculate_trade_metrics
            (trades.map (fun t => { t with accountChange := t.accountChange + c }))) ≠
          calculate_sharpe_ratio (calculate_trade_metrics trades) := by
  constructor
  · intro trades k hk
    have h1 := ctm_accountChange_perm
      (trades.map (fun t => { t with accountChange := k * t.accountChange }))
    have h2 := ctm_accountChange_perm trades
    show sharpeVals _ = sharpeVals _
    calc sharpeVals ((calculate_trade_metrics
          (trades.map (fun t => { t with accountChange := k * t.accountChange }))).map
            (fun r => (r.accountChange : ℝ)))
        = sharpeVals ((trades.map (fun t =>
            { t with accountChange := k * t.accountChange })).map
              (fun t => (t.accountChange : ℝ))) := sharpeVals_perm _ _ h1
      _ = sharpeVals ((trades.map (fun t => (t.accountChange : ℝ))).map
            (fun x => (k : ℝ) * x)) := by
          rw [List.map_map, List.map_map]
          have hfun : ((fun t : Trade => (t.accountChange : ℝ)) ∘
              fun t => { t with accountChange := k * t.accountChange }) =
              ((fun x => (k : ℝ) * x) ∘ fun t : Trade => (t.accountChange : ℝ)) := by
            funext t
            show ((k * t.accountChange : ℚ) : ℝ) = (k : ℝ) * ((t.accountChange : ℚ) : ℝ)
            push_cast
            ring
          rw [hfun]
      _ = sharpeVals (trades.map (fun t => (t.accountChange : ℝ))) :=
          sharpeVals_scale _ _ (by exact_mod_cast hk)
      _ = sharpeVals ((calculate_trade_metrics trades).map
            (fun r => (r.accountChange : ℝ))) := (sharpeVals_perm _ _ h2).symm
  · refine ⟨exSmall, 2, ?_⟩
    have h1 := ctm_accountChange_perm
      (exSmall.map (fun t => { t with accountChange := t.accountChange + 2 }))
    have h0 := ctm_accountChange_perm exSmall
    have e1 : (exSmall.map (fun t => { t with accountChange := t.accountChange + 2 })).map
        (fun t => (t.accountChange : ℝ)) = [1, 1] := by
      show [((-1 + 2 : ℚ) : ℝ), ((-1 + 2 : ℚ) : ℝ)] = [1, 1]
      norm_num
    have e0 : exSmall.map (fun t => (t.accountChange : ℝ)) = [-1, -1] := by
      show [((-1 : ℚ) : ℝ), ((-1 : ℚ) : ℝ)] = [-1, -1]
      norm_num
    have l1 : calculate_sharpe_ratio (calculate_trade_metrics
        (exSmall.map (fun t => { t with accountChange := t.accountChange + 2 }))) =
        sharpeVals [1, 1] := by
      show sharpeVals _ = _
      rw [sharpeVals_perm _ _ h1, e1]
    have l0 : calculate_sharpe_ratio (calculate_trade_metrics exSmall) =
        sharpeVals [-1, -1] := by
      show sharpeVals _ = _
      rw [sharpeVals_perm _ _ h0, e0]
    rw [l1, l0, sharpeVals_pair, sharpeVals_pair]
    have hs252 : (0 : ℝ) < Real.sqrt 252 := Real.sqrt_pos.mpr (by norm_num)
    have hpos : PV.div (PV.num (1 : ℝ)) (PV.num 0) = PV.pinf := by
      simp [PV.div]
    have hneg : PV.div (PV.num (-1 : ℝ)) (PV.num 0) = PV.ninf := by
      norm_num [PV.div]
    rw [hpos, hneg]
    simp [PV.mul, ne_of_gt hs252, hs252]

/-- Witness for C7: the scale-invariance instance at `k = 2` on the concrete
two-trade input. -/
theorem C7_sharpe_scale_invariant_not_shift_invariant_witness :
    0 < (2 : ℚ) ∧
      calculate_sharpe_ratio (calculate_trade_metrics
          (exSmall.map (fun t => { t with accountChange := 2 * t.accountChange }))) =
        calculate_sharpe_ratio (calculate_trade_metrics exSmall) :=
  ⟨by norm_num, C7_sharpe_scale_invariant_not_shift_invariant.1 exSmall 2 (by norm_num)⟩
